import Mathlib

/-!
Verification development for the two utilities of the repository:
`extract_prompts.py` (prompt extraction from image metadata) and
`merge_images.py` (pairing and vertical merging of images).

The Python sources are shallowly embedded below: pure helpers become Lean
functions on `String`/`List Char`/`List Nat` (bytes), the standard-library
collaborators (`json.loads`, `bytes.decode`, the regex engine for the two
fixed patterns used, Python's stable `list.sort(key=...)`) are modelled
directly, and the external image library (PIL) is modelled abstractly as a
pixel-buffer algebra with a resize function kept as a parameter.
-/

/-! ## Python string primitives -/

/-- Characters removed by Python `str.strip()` (ASCII whitespace:
space, tab, newline, carriage return, vertical tab, form feed). -/
def pyWs (c : Char) : Bool :=
  c = ' ' || c = '\t' || c = '\n' || c = '\r' || c = Char.ofNat 11 || c = Char.ofNat 12

/-- Python `str.strip()` on a list of characters. -/
def pyStripList (cs : List Char) : List Char :=
  ((cs.dropWhile pyWs).reverse.dropWhile pyWs).reverse

/-- Python `str.strip()`. -/
def pyStrip (s : String) : String := String.mk (pyStripList s.data)

/-! ## The natural ("Windows-style") sort key

`natural_sort_key` (extract_prompts.py, lines 14-22) and `windows_sort_key`
(merge_images.py, lines 8-14) are the same function: split the input with
`re.split(r'(\d+)', text)` and convert each chunk with
`int(text) if text.isdigit() else text.lower()`. -/

/-- One element of a sort key: a digit run converted with `int`, or another
run converted with `str.lower`. -/
inductive SortElem where
  | num (n : Nat)
  | str (s : List Char)
deriving DecidableEq, Repr

/-- Python `int` of a run of decimal digits. -/
def natOfDigits (cs : List Char) : Nat :=
  cs.foldl (fun a c => a * 10 + (c.toNat - 48)) 0

/-- Python `str.lower()` on a run of characters (ASCII case folding). -/
def lowerRun (cs : List Char) : List Char := cs.map Char.toLower

/-- Accumulator pass behind `splitKey`.  `re.split(r'(\d+)', text)` returns
the (possibly empty) non-digit chunks interleaved with the digit runs,
starting with a non-digit chunk and ending with one; the Boolean records
whether the run being accumulated (in reverse) is a digit run. -/
def splitKeyAux : Bool → List Char → List Char → List SortElem
  | false, acc, [] => [SortElem.str (lowerRun acc.reverse)]
  | false, acc, c :: rest =>
    if c.isDigit then SortElem.str (lowerRun acc.reverse) :: splitKeyAux true [c] rest
    else splitKeyAux false (c :: acc) rest
  | true, acc, [] => [SortElem.num (natOfDigits acc.reverse), SortElem.str []]
  | true, acc, c :: rest =>
    if c.isDigit then splitKeyAux true (c :: acc) rest
    else SortElem.num (natOfDigits acc.reverse) :: splitKeyAux false [c] rest

/-- Key of `re.split(r'(\d+)', text)` with each chunk converted by
`int(text) if text.isdigit() else text.lower()`. -/
def splitKey (cs : List Char) : List SortElem := splitKeyAux false [] cs

/-- The sort key of `extract_prompts.py` (lines 14-22). -/
def natural_sort_key (text : String) : List SortElem := splitKey text.data

/-- The sort key of `merge_images.py` (lines 8-14); same computation as
`natural_sort_key`. -/
def windows_sort_key (filename : String) : List SortElem := splitKey filename.data

/-! ## Comparison of sort keys, as Python compares lists of ints and strings -/

/-- Comparison of two characters as Python compares string characters
(by Unicode code point). -/
def charCmp (a b : Char) : Ordering :=
  if a = b then .eq else if a < b then .lt else .gt

/-- Lexicographic comparison of two Python strings (a proper prefix is
smaller). -/
def strCmp : List Char → List Char → Ordering
  | [], [] => .eq
  | [], _ :: _ => .lt
  | _ :: _, [] => .gt
  | a :: as, b :: bs => (charCmp a b).then (strCmp as bs)

/-- Comparison of two key elements as Python compares list elements:
integers by value, strings lexicographically.  Comparing an integer with a
string raises `TypeError` in Python; between keys produced by `splitKey`
this never happens (even positions are always strings, odd positions always
integers), so the value chosen for the mixed cases is immaterial. -/
def elemCmp : SortElem → SortElem → Ordering
  | .num a, .num b => if a = b then .eq else if a < b then .lt else .gt
  | .str a, .str b => strCmp a b
  | .num _, .str _ => .lt
  | .str _, .num _ => .gt

/-- Lexicographic comparison of two sort keys, as Python compares lists
(a proper prefix is smaller). -/
def keyCmp : List SortElem → List SortElem → Ordering
  | [], [] => .eq
  | [], _ :: _ => .lt
  | _ :: _, [] => .gt
  | a :: as, b :: bs => (elemCmp a b).then (keyCmp as bs)

/-- The ordering used by `sort(key=...)`: the key of `a` is not greater
than the key of `b`. -/
def keyLe (a b : List SortElem) : Bool :=
  match keyCmp a b with
  | .gt => false
  | _ => true

/-! ### Order properties of the key comparison -/

theorem charCmp_eq_iff {a b : Char} : charCmp a b = .eq ↔ a = b := by
  unfold charCmp
  split
  · simp_all
  · split <;> simp_all

theorem charCmp_lt_iff {a b : Char} : charCmp a b = .lt ↔ a < b := by
  unfold charCmp
  split
  · simp_all
  · split <;> simp_all

theorem charCmp_swap (a b : Char) : (charCmp a b).swap = charCmp b a := by
  rcases lt_trichotomy a b with h | h | h
  · simp [charCmp, ne_of_lt h, (ne_of_lt h).symm, lt_asymm h, h, Ordering.swap]
  · simp [charCmp, h, Ordering.swap]
  · simp [charCmp, ne_of_gt h, (ne_of_gt h).symm, lt_asymm h, h, Ordering.swap]

theorem charCmp_lt_trans {a b c : Char} (h1 : charCmp a b = .lt)
    (h2 : charCmp b c = .lt) : charCmp a c = .lt :=
  charCmp_lt_iff.mpr (lt_trans (charCmp_lt_iff.mp h1) (charCmp_lt_iff.mp h2))

theorem strCmp_eq_iff : ∀ {a b : List Char}, strCmp a b = .eq ↔ a = b
  | [], [] => by simp [strCmp]
  | [], _ :: _ => by simp [strCmp]
  | _ :: _, [] => by simp [strCmp]
  | a :: as, b :: bs => by
    simp only [strCmp]
    cases h : charCmp a b with
    | lt =>
      simp [Ordering.then]
      intro hab hasbs
      rw [hab, charCmp_eq_iff.mpr rfl] at h
      cases h
    | gt =>
      simp [Ordering.then]
      intro hab hasbs
      rw [hab, charCmp_eq_iff.mpr rfl] at h
      cases h
    | eq =>
      have hab : a = b := charCmp_eq_iff.mp h
      simp [Ordering.then, hab, strCmp_eq_iff (a := as) (b := bs)]

theorem strCmp_swap : ∀ (a b : List Char), (strCmp a b).swap = strCmp b a
  | [], [] => by simp [strCmp, Ordering.swap]
  | [], _ :: _ => by simp [strCmp, Ordering.swap]
  | _ :: _, [] => by simp [strCmp, Ordering.swap]
  | a :: as, b :: bs => by
    simp only [strCmp]
    cases h : charCmp a b with
    | lt =>
      have h' : charCmp b a = .gt := by rw [← charCmp_swap a b, h]; rfl
      simp [Ordering.then, h', Ordering.swap]
    | gt =>
      have h' : charCmp b a = .lt := by rw [← charCmp_swap a b, h]; rfl
      simp [Ordering.then, h', Ordering.swap]
    | eq =>
      have h' : charCmp b a = .eq := by rw [← charCmp_swap a b, h]; rfl
      simp [Ordering.then, h', strCmp_swap as bs]

theorem strCmp_lt_trans : ∀ {a b c : List Char}, strCmp a b = .lt →
    strCmp b c = .lt → strCmp a c = .lt
  | [], [], _, h1, _ => by simp [strCmp] at h1
  | [], _ :: _, [], _, h2 => by simp [strCmp] at h2
  | [], _ :: _, _ :: _, _, _ => by simp [strCmp]
  | _ :: _, [], _, h1, _ => by simp [strCmp] at h1
  | _ :: _, _ :: _, [], _, h2 => by simp [strCmp] at h2
  | a :: as, b :: bs, c :: cs, h1, h2 => by
    simp only [strCmp] at h1 h2 ⊢
    cases hab : charCmp a b with
    | gt => rw [hab] at h1; simp [Ordering.then] at h1
    | lt =>
      cases hbc : charCmp b c with
      | gt => rw [hbc] at h2; simp [Ordering.then] at h2
      | lt => rw [charCmp_lt_trans hab hbc]; rfl
      | eq =>
        have : b = c := charCmp_eq_iff.mp hbc
        rw [← this, hab]; rfl
    | eq =>
      have hab' : a = b := charCmp_eq_iff.mp hab
      rw [hab] at h1; simp only [Ordering.then] at h1
      cases hbc : charCmp b c with
      | gt => rw [hbc] at h2; simp [Ordering.then] at h2
      | lt => rw [hab', hbc]; rfl
      | eq =>
        rw [hbc] at h2; simp only [Ordering.then] at h2
        rw [hab', hbc]
        simpa [Ordering.then] using strCmp_lt_trans h1 h2

theorem elemCmp_eq_iff : ∀ {a b : SortElem}, elemCmp a b = .eq ↔ a = b
  | .num a, .num b => by
    simp only [elemCmp]
    split
    · simp_all
    · split <;> simp_all
  | .num _, .str _ => by simp [elemCmp]
  | .str _, .num _ => by simp [elemCmp]
  | .str a, .str b => by simp [elemCmp, strCmp_eq_iff]

theorem elemCmp_swap : ∀ (a b : SortElem), (elemCmp a b).swap = elemCmp b a
  | .num a, .num b => by
    rcases lt_trichotomy a b with h | h | h
    · simp [elemCmp, ne_of_lt h, (ne_of_lt h).symm, lt_asymm h, h, Ordering.swap]
    · simp [elemCmp, h, Ordering.swap]
    · simp [elemCmp, ne_of_gt h, (ne_of_gt h).symm, lt_asymm h, h, Ordering.swap]
  | .num _, .str _ => by simp [elemCmp, Ordering.swap]
  | .str _, .num _ => by simp [elemCmp, Ordering.swap]
  | .str a, .str b => by simp [elemCmp, strCmp_swap]

theorem elemCmp_lt_trans : ∀ {a b c : SortElem}, elemCmp a b = .lt →
    elemCmp b c = .lt → elemCmp a c = .lt
  | .num a, .num b, .num c, h1, h2 => by
    simp only [elemCmp] at h1 h2 ⊢
    have hab : a < b := by
      revert h1; split
      · simp_all
      · split <;> simp_all
    have hbc : b < c := by
      revert h2; split
      · simp_all
      · split <;> simp_all
    have hac : a < c := lt_trans hab hbc
    simp [Nat.ne_of_lt hac, hac]
  | .num _, .num _, .str _, _, _ => by simp [elemCmp]
  | .num _, .str _, .num _, _, h2 => by simp [elemCmp] at h2
  | .num _, .str _, .str _, _, _ => by simp [elemCmp]
  | .str _, .num _, _, h1, _ => by simp [elemCmp] at h1
  | .str _, .str _, .num _, _, h2 => by simp [elemCmp] at h2
  | .str a, .str b, .str c, h1, h2 => by
    simp only [elemCmp] at h1 h2 ⊢
    exact strCmp_lt_trans h1 h2

theorem keyCmp_eq_iff : ∀ {a b : List SortElem}, keyCmp a b = .eq ↔ a = b
  | [], [] => by simp [keyCmp]
  | [], _ :: _ => by simp [keyCmp]
  | _ :: _, [] => by simp [keyCmp]
  | a :: as, b :: bs => by
    simp only [keyCmp]
    cases h : elemCmp a b with
    | lt =>
      simp [Ordering.then]
      intro hab hasbs
      rw [hab, elemCmp_eq_iff.mpr rfl] at h
      cases h
    | gt =>
      simp [Ordering.then]
      intro hab hasbs
      rw [hab, elemCmp_eq_iff.mpr rfl] at h
      cases h
    | eq =>
      have hab : a = b := elemCmp_eq_iff.mp h
      simp [Ordering.then, hab, keyCmp_eq_iff (a := as) (b := bs)]

theorem keyCmp_swap : ∀ (a b : List SortElem), (keyCmp a b).swap = keyCmp b a
  | [], [] => by simp [keyCmp, Ordering.swap]
  | [], _ :: _ => by simp [keyCmp, Ordering.swap]
  | _ :: _, [] => by simp [keyCmp, Ordering.swap]
  | a :: as, b :: bs => by
    simp only [keyCmp]
    cases h : elemCmp a b with
    | lt =>
      have h' : elemCmp b a = .gt := by rw [← elemCmp_swap a b, h]; rfl
      simp [Ordering.then, h', Ordering.swap]
    | gt =>
      have h' : elemCmp b a = .lt := by rw [← elemCmp_swap a b, h]; rfl
      simp [Ordering.then, h', Ordering.swap]
    | eq =>
      have h' : elemCmp b a = .eq := by rw [← elemCmp_swap a b, h]; rfl
      simp [Ordering.then, h', keyCmp_swap as bs]

theorem keyCmp_lt_trans : ∀ {a b c : List SortElem}, keyCmp a b = .lt →
    keyCmp b c = .lt → keyCmp a c = .lt
  | [], [], _, h1, _ => by simp [keyCmp] at h1
  | [], _ :: _, [], _, h2 => by simp [keyCmp] at h2
  | [], _ :: _, _ :: _, _, _ => by simp [keyCmp]
  | _ :: _, [], _, h1, _ => by simp [keyCmp] at h1
  | _ :: _, _ :: _, [], _, h2 => by simp [keyCmp] at h2
  | a :: as, b :: bs, c :: cs, h1, h2 => by
    simp only [keyCmp] at h1 h2 ⊢
    cases hab : elemCmp a b with
    | gt => rw [hab] at h1; simp [Ordering.then] at h1
    | lt =>
      cases hbc : elemCmp b c with
      | gt => rw [hbc] at h2; simp [Ordering.then] at h2
      | lt => rw [elemCmp_lt_trans hab hbc]; rfl
      | eq =>
        have : b = c := elemCmp_eq_iff.mp hbc
        rw [← this, hab]; rfl
    | eq =>
      have hab' : a = b := elemCmp_eq_iff.mp hab
      rw [hab] at h1; simp only [Ordering.then] at h1
      cases hbc : elemCmp b c with
      | gt => rw [hbc] at h2; simp [Ordering.then] at h2
      | lt => rw [hab', hbc]; rfl
      | eq =>
        rw [hbc] at h2; simp only [Ordering.then] at h2
        rw [hab', hbc]
        simpa [Ordering.then] using keyCmp_lt_trans h1 h2

theorem keyLe_total (a b : List SortElem) : keyLe a b = true ∨ keyLe b a = true := by
  unfold keyLe
  cases h : keyCmp a b with
  | lt => left; rfl
  | eq => left; rfl
  | gt =>
    right
    have h' : keyCmp b a = .lt := by rw [← keyCmp_swap a b, h]; rfl
    rw [h']

theorem keyLe_trans {a b c : List SortElem} (h1 : keyLe a b = true)
    (h2 : keyLe b c = true) : keyLe a c = true := by
  unfold keyLe at h1 h2 ⊢
  cases hab : keyCmp a b with
  | gt => rw [hab] at h1; simp at h1
  | eq => rw [keyCmp_eq_iff.mp hab]; exact h2
  | lt =>
    cases hbc : keyCmp b c with
    | gt => rw [hbc] at h2; simp at h2
    | eq => rw [← keyCmp_eq_iff.mp hbc, hab]
    | lt => rw [keyCmp_lt_trans hab hbc]

theorem keyLe_antisymm {a b : List SortElem} (h1 : keyLe a b = true)
    (h2 : keyLe b a = true) : a = b := by
  unfold keyLe at h1 h2
  cases h : keyCmp a b with
  | eq => exact keyCmp_eq_iff.mp h
  | gt => rw [h] at h1; simp at h1
  | lt =>
    have h' : keyCmp b a = .gt := by rw [← keyCmp_swap a b, h]; rfl
    rw [h'] at h2; simp at h2

/-! ## Sorting by key, as Python's stable `list.sort(key=...)` -/

/-- The ordering on filenames induced by `natural_sort_key`. -/
def fileLeNat (a b : String) : Prop :=
  keyLe (natural_sort_key a) (natural_sort_key b) = true

instance : DecidableRel fileLeNat := fun _ _ => Bool.decEq _ _

/-- The ordering on filenames induced by `windows_sort_key`. -/
def fileLeWin (a b : String) : Prop :=
  keyLe (windows_sort_key a) (windows_sort_key b) = true

instance : DecidableRel fileLeWin := fun _ _ => Bool.decEq _ _

/-- Python's `image_files.sort(key=natural_sort_key)` (extract_prompts.py,
line 168).  Python's sort is exactly the stable sort by the key ordering,
and a stable sort by a given total preorder is a unique function, so
insertion sort (which is stable) is that function. -/
def sortByNatKey (files : List String) : List String :=
  List.insertionSort fileLeNat files

/-- Python's `files.sort(key=windows_sort_key)` (merge_images.py, line 19). -/
def sortByWinKey (files : List String) : List String :=
  List.insertionSort fileLeWin files

/-- C5: the natural sort key splits a filename into alternating numeric and
non-numeric runs (`splitKey`), numeric runs compared by integer value and
non-numeric runs case-insensitively; the induced comparison `keyLe` is total,
transitive and antisymmetric on keys — a total order on key sequences, hence
a total preorder on filenames in which ties are exactly equal keys — and
sorting `["10.png","2.png","1.png"]` by this key yields
`["1.png","2.png","10.png"]`; moreover `"2.png"` sorts strictly before
`"10.png"` (2 < 10 as integers) and keys are case-insensitive. -/
theorem natural_sort_key_total_order :
    (∀ a b : List SortElem, keyLe a b = true ∨ keyLe b a = true) ∧
    (∀ a b c : List SortElem, keyLe a b = true → keyLe b c = true →
      keyLe a c = true) ∧
    (∀ a b : List SortElem, keyLe a b = true → keyLe b a = true → a = b) ∧
    sortByNatKey ["10.png", "2.png", "1.png"] = ["1.png", "2.png", "10.png"] ∧
    keyLe (natural_sort_key "2.png") (natural_sort_key "10.png") = true ∧
    keyLe (natural_sort_key "10.png") (natural_sort_key "2.png") = false ∧
    natural_sort_key "A1b" = natural_sort_key "a1B" :=
  ⟨keyLe_total, fun _ _ _ => keyLe_trans, fun _ _ => keyLe_antisymm,
    by decide, by decide, by decide, by decide⟩

/-- Witness: the transitivity part of C5 applied at concrete keys. -/
theorem natural_sort_key_total_order_witness :
    keyLe (natural_sort_key "1.png") (natural_sort_key "10.png") = true :=
  natural_sort_key_total_order.2.1 (natural_sort_key "1.png")
    (natural_sort_key "2.png") (natural_sort_key "10.png")
    (by decide) (by decide)

/-! ## merge_images.py: pair discovery (`get_image_pairs`, lines 16-40) -/

/-- The filter `f.endswith(('.png', '.jpg', '.jpeg'))` of merge_images.py
line 18 — case-sensitive. -/
def mergerHasImageExt (f : String) : Bool :=
  [".png", ".jpg", ".jpeg"].any (fun e => e.data.isSuffixOf f.data)

/-- The regex `re.match(r'(\d+)_(\d+)\.', filename)` of merge_images.py line
24: at the start of the filename, a nonempty digit run, an underscore, a
nonempty digit run, then a dot; returns the two digit groups.  (Backtracking
cannot produce any other match: a shorter first group would be followed by a
digit, not `_`, and likewise for the second group and `.`.) -/
def matchPair (f : String) : Option (String × String) :=
  match f.data.span Char.isDigit with
  | (d1, r1) =>
    match d1, r1 with
    | [], _ => none
    | _ :: _, '_' :: r2 =>
      match r2.span Char.isDigit with
      | (d2, r3) =>
        match d2, r3 with
        | [], _ => none
        | _ :: _, '.' :: _ => some (String.mk d1, String.mk d2)
        | _, _ => none
    | _, _ => none

/-- The dict `pairs` of `get_image_pairs` as a function of (prefix, suffix):
`pairs[prefix][suffix] = filename` executed over the sorted filenames in
order, a later assignment to the same keys overwriting an earlier one. -/
def pairsMapOf (files : List String) : String → String → Option String :=
  files.foldl
    (fun m f =>
      match matchPair f with
      | some (p, s) => fun p' s' => if p' = p ∧ s' = s then some f else m p' s'
      | none => m)
    (fun _ _ => none)

/-- The insertion order of the keys of the dict `pairs` (a Python dict
iterates its keys in first-insertion order). -/
def pairsKeys (files : List String) : List String :=
  files.foldl
    (fun ks f =>
      match matchPair f with
      | some (p, _) => if p ∈ ks then ks else ks ++ [p]
      | none => ks)
    []

/-- The ordering used by `sorted(pairs.keys(), key=int)` (merge_images.py
line 36): keys compared by their numeric value. -/
def intKeyLe (a b : String) : Prop := natOfDigits a.data ≤ natOfDigits b.data

instance : DecidableRel intKeyLe := fun _ _ => Nat.decLe _ _

instance : IsTotal String intKeyLe := ⟨fun _ _ => Nat.le_total _ _⟩

instance : IsTrans String intKeyLe := ⟨fun _ _ _ => Nat.le_trans⟩

/-- `get_image_pairs` (merge_images.py, lines 16-40) over a directory
listing: keep files with the case-sensitive extensions, sort by the Windows
key, group by the regex into the dict, then emit
`(prefix, pairs[prefix]['0'], pairs[prefix]['1'])` for every prefix that has
both suffixes, prefixes iterated in `sorted(pairs.keys(), key=int)` order
(Python's `sorted` is a stable sort by the key).  The pieces are named:
`mergerSortedFiles` is the filtered and sorted listing, `sortedPrefixes` the
prefix iteration order, `emitPair` the loop body, and `get_image_pairs`
their composition. -/
def mergerSortedFiles (files : List String) : List String :=
  sortByWinKey (files.filter mergerHasImageExt)

/-- Iteration order of `for prefix in sorted(pairs.keys(), key=int)`. -/
def sortedPrefixes (files : List String) : List String :=
  List.insertionSort intKeyLe (pairsKeys (mergerSortedFiles files))

/-- Body of `get_image_pairs`: the emitted triple for one prefix, if both
suffixes are present in the dict. -/
def emitPair (m : String → String → Option String) (p : String) :
    Option (String × String × String) :=
  match m p "0", m p "1" with
  | some a, some b => some (p, a, b)
  | _, _ => none

def get_image_pairs (files : List String) : List (String × String × String) :=
  (sortedPrefixes files).filterMap (emitPair (pairsMapOf (mergerSortedFiles files)))

/-- The last file of `fs` whose regex groups are `(p, s)`: the value that
`pairs[p][s]` holds after the grouping loop. -/
def lastMatch (fs : List String) (p s : String) : Option String :=
  (fs.filter (fun f => decide (matchPair f = some (p, s)))).getLast?

/-! ### Properties of the grouping dict -/

theorem pairsMapOf_concat (l : List String) (f : String) (p s : String) :
    pairsMapOf (l ++ [f]) p s =
      match matchPair f with
      | some (p0, s0) => if p = p0 ∧ s = s0 then some f else pairsMapOf l p s
      | none => pairsMapOf l p s := by
  unfold pairsMapOf
  rw [List.foldl_append]
  simp only [List.foldl_cons, List.foldl_nil]
  cases matchPair f with
  | none => rfl
  | some ps =>
    obtain ⟨p0, s0⟩ := ps
    rfl

theorem lastMatch_concat (l : List String) (f : String) (p s : String) :
    lastMatch (l ++ [f]) p s =
      if matchPair f = some (p, s) then some f else lastMatch l p s := by
  unfold lastMatch
  rw [List.filter_append]
  by_cases h : matchPair f = some (p, s)
  · simp [h]
  · simp [h]

theorem pairsMapOf_eq_lastMatch (fs : List String) (p s : String) :
    pairsMapOf fs p s = lastMatch fs p s := by
  induction fs using List.reverseRecOn with
  | nil => rfl
  | append_singleton l f ih =>
    rw [pairsMapOf_concat, lastMatch_concat]
    cases hm : matchPair f with
    | none => simp [ih]
    | some ps =>
      obtain ⟨p0, s0⟩ := ps
      by_cases hps : p = p0 ∧ s = s0
      · obtain ⟨h1, h2⟩ := hps
        subst h1; subst h2
        simp
      · have hne : ¬ (some (p0, s0) : Option (String × String)) = some (p, s) := by
          intro hcontra
          apply hps
          obtain ⟨h1, h2⟩ := Prod.mk.injEq .. ▸ Option.some.injEq .. ▸ hcontra
          exact ⟨h1.symm, h2.symm⟩
        simp [hps, hne, ih]

theorem lastMatch_isSome_iff (fs : List String) (p s : String) :
    (∃ a, lastMatch fs p s = some a) ↔ ∃ f ∈ fs, matchPair f = some (p, s) := by
  unfold lastMatch
  rw [← Option.isSome_iff_exists, List.getLast?_isSome]
  constructor
  · intro h
    obtain ⟨f, hf⟩ := List.exists_mem_of_ne_nil _ h
    have := List.mem_filter.mp hf
    exact ⟨f, this.1, of_decide_eq_true this.2⟩
  · intro ⟨f, hmem, hmatch⟩
    intro hnil
    have : f ∈ List.filter (fun f => decide (matchPair f = some (p, s))) fs :=
      List.mem_filter.mpr ⟨hmem, decide_eq_true hmatch⟩
    rw [hnil] at this
    cases this

theorem pairsKeys_concat (l : List String) (f : String) :
    pairsKeys (l ++ [f]) =
      match matchPair f with
      | some (p0, _) =>
        if p0 ∈ pairsKeys l then pairsKeys l else pairsKeys l ++ [p0]
      | none => pairsKeys l := by
  unfold pairsKeys
  rw [List.foldl_append]
  simp only [List.foldl_cons, List.foldl_nil]

theorem mem_pairsKeys (fs : List String) (p : String) :
    p ∈ pairsKeys fs ↔ ∃ f ∈ fs, ∃ s, matchPair f = some (p, s) := by
  induction fs using List.reverseRecOn with
  | nil => simp [pairsKeys]
  | append_singleton l f ih =>
    rw [pairsKeys_concat]
    cases hm : matchPair f with
    | none =>
      simp only [ih]
      constructor
      · intro ⟨g, hg, hs⟩
        exact ⟨g, by simp [hg], hs⟩
      · intro ⟨g, hg, s, hs⟩
        rcases List.mem_append.mp hg with h | h
        · exact ⟨g, h, s, hs⟩
        · rw [List.mem_singleton.mp h] at hs
          rw [hm] at hs
          cases hs
    | some ps =>
      obtain ⟨p0, s0⟩ := ps
      have hiff : (p ∈ pairsKeys l ∨ p = p0) ↔
          ∃ g ∈ l ++ [f], ∃ s, matchPair g = some (p, s) := by
        constructor
        · intro h
          rcases h with h | h
          · obtain ⟨g, hg, s, hs⟩ := ih.mp h
            exact ⟨g, by simp [hg], s, hs⟩
          · subst h
            exact ⟨f, by simp, s0, hm⟩
        · intro ⟨g, hg, s, hs⟩
          rcases List.mem_append.mp hg with h | h
          · exact Or.inl (ih.mpr ⟨g, h, s, hs⟩)
          · rw [List.mem_singleton.mp h, hm] at hs
            obtain ⟨h1, _⟩ := Prod.mk.injEq .. ▸ Option.some.injEq .. ▸ hs
            exact Or.inr h1.symm
      rw [← hiff]
      by_cases hp0 : p0 ∈ pairsKeys l
      · simp only [if_pos hp0]
        constructor
        · exact Or.inl
        · intro h
          rcases h with h | h
          · exact h
          · subst h; exact hp0
      · simp only [if_neg hp0, List.mem_append, List.mem_singleton]

theorem emitPair_eq_some_iff (m : String → String → Option String)
    (q p a b : String) :
    emitPair m q = some (p, a, b) ↔
      q = p ∧ m q "0" = some a ∧ m q "1" = some b := by
  unfold emitPair
  cases h0 : m q "0" with
  | none => simp
  | some a0 =>
    cases h1 : m q "1" with
    | none => simp
    | some b0 => simp

theorem emitPair_fst (m : String → String → Option String) (q : String)
    (t : String × String × String) (h : emitPair m q = some t) : t.1 = q := by
  unfold emitPair at h
  cases h0 : m q "0" with
  | none => rw [h0] at h; cases h
  | some a0 =>
    cases h1 : m q "1" with
    | none => rw [h0, h1] at h; cases h
    | some b0 =>
      rw [h0, h1] at h
      cases h
      rfl

theorem mem_mergerSortedFiles (files : List String) (f : String) :
    f ∈ mergerSortedFiles files ↔ f ∈ files ∧ mergerHasImageExt f = true := by
  unfold mergerSortedFiles sortByWinKey
  rw [List.mem_insertionSort, List.mem_filter]

theorem mem_get_image_pairs (files : List String) (p a b : String) :
    (p, a, b) ∈ get_image_pairs files ↔
      p ∈ pairsKeys (mergerSortedFiles files) ∧
      pairsMapOf (mergerSortedFiles files) p "0" = some a ∧
      pairsMapOf (mergerSortedFiles files) p "1" = some b := by
  unfold get_image_pairs
  rw [List.mem_filterMap]
  constructor
  · intro ⟨q, hq, hgq⟩
    obtain ⟨hqp, h0, h1⟩ := (emitPair_eq_some_iff _ q p a b).mp hgq
    subst hqp
    refine ⟨?_, h0, h1⟩
    unfold sortedPrefixes at hq
    exact (List.mem_insertionSort _).mp hq
  · intro ⟨hk, h0, h1⟩
    refine ⟨p, ?_, (emitPair_eq_some_iff _ p p a b).mpr ⟨rfl, h0, h1⟩⟩
    unfold sortedPrefixes
    exact (List.mem_insertionSort _).mpr hk

theorem get_image_pairs_pairwise (files : List String) :
    (get_image_pairs files).Pairwise
      (fun t u => natOfDigits t.1.data ≤ natOfDigits u.1.data) := by
  unfold get_image_pairs
  rw [List.pairwise_filterMap]
  have hs : (sortedPrefixes files).Pairwise intKeyLe := by
    unfold sortedPrefixes
    exact List.sorted_insertionSort intKeyLe _
  apply hs.imp
  intro q q' hqq' t ht u hu
  rw [Option.mem_def] at ht hu
  rw [emitPair_fst _ _ _ ht, emitPair_fst _ _ _ hu]
  exact hqq'

/-- C6: pair discovery over any directory listing emits exactly the indices
for which both a suffix-"0" and a suffix-"1" file (among the files passing
the extension filter and matching the `(\d+)_(\d+)\.` pattern) are present,
ordered by ascending numeric value of the index; indices with only one
suffix, or files with other suffixes, contribute no pair; on
`0_0.png, 0_1.png, 1_0.png` only `("0", "0_0.png", "0_1.png")` is produced
and index `1` is dropped. -/
theorem get_image_pairs_spec :
    (∀ files p a b, (p, a, b) ∈ get_image_pairs files →
      ((∃ f ∈ files, mergerHasImageExt f = true ∧ matchPair f = some (p, "0")) ∧
       (∃ f ∈ files, mergerHasImageExt f = true ∧ matchPair f = some (p, "1")))) ∧
    (∀ files p,
      (∃ f ∈ files, mergerHasImageExt f = true ∧ matchPair f = some (p, "0")) →
      (∃ f ∈ files, mergerHasImageExt f = true ∧ matchPair f = some (p, "1")) →
      ∃ a b, (p, a, b) ∈ get_image_pairs files) ∧
    (∀ files, (get_image_pairs files).Pairwise
      (fun t u => natOfDigits t.1.data ≤ natOfDigits u.1.data)) ∧
    get_image_pairs ["0_0.png", "0_1.png", "1_0.png"] =
      [("0", "0_0.png", "0_1.png")] := by
  refine ⟨?_, ?_, get_image_pairs_pairwise, by decide⟩
  · intro files p a b hmem
    obtain ⟨_, h0, h1⟩ := (mem_get_image_pairs files p a b).mp hmem
    rw [pairsMapOf_eq_lastMatch] at h0 h1
    have e0 := (lastMatch_isSome_iff (mergerSortedFiles files) p "0").mp ⟨a, h0⟩
    have e1 := (lastMatch_isSome_iff (mergerSortedFiles files) p "1").mp ⟨b, h1⟩
    obtain ⟨f0, hf0, hm0⟩ := e0
    obtain ⟨f1, hf1, hm1⟩ := e1
    obtain ⟨hf0', he0⟩ := (mem_mergerSortedFiles files f0).mp hf0
    obtain ⟨hf1', he1⟩ := (mem_mergerSortedFiles files f1).mp hf1
    exact ⟨⟨f0, hf0', he0, hm0⟩, ⟨f1, hf1', he1, hm1⟩⟩
  · intro files p h0 h1
    obtain ⟨f0, hf0, he0, hm0⟩ := h0
    obtain ⟨f1, hf1, he1, hm1⟩ := h1
    have e0 := (lastMatch_isSome_iff (mergerSortedFiles files) p "0").mpr
      ⟨f0, (mem_mergerSortedFiles files f0).mpr ⟨hf0, he0⟩, hm0⟩
    have e1 := (lastMatch_isSome_iff (mergerSortedFiles files) p "1").mpr
      ⟨f1, (mem_mergerSortedFiles files f1).mpr ⟨hf1, he1⟩, hm1⟩
    obtain ⟨a, ha⟩ := e0
    obtain ⟨b, hb⟩ := e1
    refine ⟨a, b, (mem_get_image_pairs files p a b).mpr ⟨?_, ?_, ?_⟩⟩
    · exact (mem_pairsKeys _ p).mpr
        ⟨f0, (mem_mergerSortedFiles files f0).mpr ⟨hf0, he0⟩, "0", hm0⟩
    · rw [pairsMapOf_eq_lastMatch]; exact ha
    · rw [pairsMapOf_eq_lastMatch]; exact hb

/-- Witness for C6: the existence direction applied to the concrete listing
of the claim. -/
theorem get_image_pairs_spec_witness :
    ∃ a b, ("0", a, b) ∈ get_image_pairs ["0_0.png", "0_1.png", "1_0.png"] :=
  get_image_pairs_spec.2.1 ["0_0.png", "0_1.png", "1_0.png"] "0"
    ⟨"0_0.png", by decide, by decide, by decide⟩
    ⟨"0_1.png", by decide, by decide, by decide⟩

/-- C10: when several files share the same (index, suffix) regex groups, the
grouping dict keeps the one occurring last in the natural-sort order of the
filtered listing (later assignments overwrite earlier ones), so every
emitted pair carries, for each suffix, exactly that last file; in
particular with `0_0.png, 0_0.jpg, 0_1.png` the pair is
`("0", "0_0.png", "0_1.png")` (the sorted order is
`0_0.jpg, 0_0.png, 0_1.png`, so `0_0.png` overwrites `0_0.jpg`). -/
theorem get_image_pairs_last_wins :
    (∀ files p a b, (p, a, b) ∈ get_image_pairs files →
      lastMatch (mergerSortedFiles files) p "0" = some a ∧
      lastMatch (mergerSortedFiles files) p "1" = some b) ∧
    get_image_pairs ["0_0.png", "0_0.jpg", "0_1.png"] =
      [("0", "0_0.png", "0_1.png")] := by
  refine ⟨?_, by decide⟩
  intro files p a b hmem
  obtain ⟨_, h0, h1⟩ := (mem_get_image_pairs files p a b).mp hmem
  rw [pairsMapOf_eq_lastMatch] at h0 h1
  exact ⟨h0, h1⟩

/-- Witness for C10: the overwrite property applied to the concrete listing
with colliding `0_0.png` and `0_0.jpg`. -/
theorem get_image_pairs_last_wins_witness :
    lastMatch (mergerSortedFiles ["0_0.png", "0_0.jpg", "0_1.png"]) "0" "0" =
      some "0_0.png" ∧
    lastMatch (mergerSortedFiles ["0_0.png", "0_0.jpg", "0_1.png"]) "0" "1" =
      some "0_1.png" :=
  get_image_pairs_last_wins.1 ["0_0.png", "0_0.jpg", "0_1.png"]
    "0" "0_0.png" "0_1.png" (by decide)

/-! ## extract_prompts.py: directory collection (`process_folder`,
lines 148-182) -/

/-- The extension set of `process_folder` (line 160): only the
all-lowercase and the all-uppercase spellings are listed. -/
def image_extensions : List String :=
  [".png", ".jpg", ".jpeg", ".webp", ".PNG", ".JPG", ".JPEG", ".WEBP"]

/-- The test `any(f.endswith(ext) for ext in image_extensions)`
(line 164). -/
def extractorHasImageExt (f : String) : Bool :=
  image_extensions.any (fun e => e.data.isSuffixOf f.data)

/-- The listing `image_files` of `process_folder` (lines 161-168): names of
the directly contained files passing the extension test, sorted by the
natural key.  (The `os.path.isfile` test belongs to the filesystem
collaborator; the input here is the list of names of the directly contained
files.) -/
def folderImageFiles (files : List String) : List String :=
  sortByNatKey (files.filter extractorHasImageExt)

/-- The prompt sequence built by `process_folder` (lines 172-177), given
the per-file extraction outcome `ep`: `if prompt:` appends only truthy
(present and nonempty) prompts. -/
def process_folder (ep : String → Option String) (files : List String) :
    List String :=
  (folderImageFiles files).filterMap (fun f =>
    match ep f with
    | some p => if p = "" then none else some p
    | none => none)

/-- Counterexample to C8: `.Png` is a mixed-case variant of an allowed
extension (its lowercasing is `.png`), yet the filter of `process_folder`
rejects `a.Png`: the allow-list holds only the all-lowercase and
all-uppercase spellings. -/
theorem extractor_filter_not_case_insensitive :
    extractorHasImageExt "a.Png" = false ∧
    lowerRun "a.Png".data = "a.png".data ∧
    extractorHasImageExt "a.png" = true :=
  ⟨by decide, by decide, by decide⟩

/-- C8 (amended): directory prompt collection selects exactly the
directly-contained files whose name ends with one of the eight listed
spellings — each allowed extension in all-lowercase or in all-uppercase;
mixed-case variants such as `.Png` are rejected. -/
theorem process_folder_extension_filter :
    (∀ files f, f ∈ folderImageFiles files ↔
      f ∈ files ∧ extractorHasImageExt f = true) ∧
    (∀ f, extractorHasImageExt f = true ↔
      ∃ e ∈ image_extensions, e.data.isSuffixOf f.data = true) ∧
    extractorHasImageExt "a.PNG" = true ∧
    extractorHasImageExt "a.Png" = false := by
  refine ⟨?_, ?_, by decide, by decide⟩
  · intro files f
    unfold folderImageFiles sortByNatKey
    rw [List.mem_insertionSort, List.mem_filter]
  · intro f
    unfold extractorHasImageExt
    rw [List.any_eq_true]

/-- Witness for C8 (amended): the membership characterization at a concrete
listing. -/
theorem process_folder_extension_filter_witness :
    "a.png" ∈ folderImageFiles ["a.png", "b.txt"] ↔
      "a.png" ∈ ["a.png", "b.txt"] ∧ extractorHasImageExt "a.png" = true :=
  process_folder_extension_filter.1 ["a.png", "b.txt"] "a.png"

/-! ## Invocation environment (`main` of both scripts) -/

/-- The directory inputs the two `main` functions draw from the process:
the working directory (`os.getcwd()`) and the directory holding the script
file (`os.path.dirname(os.path.abspath(__file__))`). -/
structure ProcEnv where
  cwd : String
  scriptDir : String
deriving DecidableEq, Repr

/-- `base_dir = os.getcwd()` — extract_prompts.py line 191. -/
def extractorBaseDir (env : ProcEnv) : String := env.cwd

/-- `current_dir = os.path.dirname(os.path.abspath(__file__)) or '.'` —
merge_images.py line 116 (the `or '.'` guard fires only on an empty
dirname). -/
def mergerCurrentDir (env : ProcEnv) : String :=
  if env.scriptDir = "" then "." else env.scriptDir

/-- `merges_dir = os.path.join(current_dir, 'merges')` — merge_images.py
line 119 (POSIX join onto a nonempty base without trailing separator). -/
def mergesDir (env : ProcEnv) : String := mergerCurrentDir env ++ "/merges"

/-- Counterexample to C9: with the process invoked from `/work` on a merger
script stored in `/scripts`, the merger enumerates pairs from `/scripts`
and creates `/scripts/merges` — not the current working directory `/work`;
only the extractor uses the working directory. -/
theorem merger_dir_not_cwd :
    extractorBaseDir ⟨"/work", "/scripts"⟩ = "/work" ∧
    mergerCurrentDir ⟨"/work", "/scripts"⟩ = "/scripts" ∧
    mergerCurrentDir ⟨"/work", "/scripts"⟩ ≠ ProcEnv.cwd ⟨"/work", "/scripts"⟩ ∧
    mergesDir ⟨"/work", "/scripts"⟩ = "/scripts/merges" :=
  ⟨rfl, by decide, by decide, by decide⟩

/-- C9 (amended): both pipelines take no arguments; the extractor operates
on the current working directory, while the merger operates on the
directory containing the script file (falling back to `.` when the dirname
is empty), enumerating pairs from it and creating its `merges`
subdirectory inside it. -/
theorem pipelines_base_dirs (env : ProcEnv) :
    extractorBaseDir env = env.cwd ∧
    (env.scriptDir ≠ "" → mergerCurrentDir env = env.scriptDir) ∧
    (env.scriptDir = "" → mergerCurrentDir env = ".") ∧
    mergesDir env = mergerCurrentDir env ++ "/merges" := by
  refine ⟨rfl, ?_, ?_, rfl⟩
  · intro h
    unfold mergerCurrentDir
    rw [if_neg h]
  · intro h
    unfold mergerCurrentDir
    rw [if_pos h]

/-- Witness for C9 (amended): the script-directory case at a concrete
environment. -/
theorem pipelines_base_dirs_witness :
    mergerCurrentDir ⟨"/w", "/s"⟩ = "/s" :=
  (pipelines_base_dirs ⟨"/w", "/s"⟩).2.1 (by decide)

/-! ## merge_images.py: merge geometry (`merge_images`, lines 42-70) -/

/-- PIL image modes relevant here. -/
inductive ImgMode where
  | RGB
  | RGBA
  | other
deriving DecidableEq, Repr

/-- Abstract PIL image: a size, a mode, and a pixel buffer (an RGB triple
per coordinate).  Decoding, resampling and encoding belong to the image
library collaborator. -/
structure Img where
  width : Nat
  height : Nat
  mode : ImgMode
  px : Nat → Nat → Nat × Nat × Nat

/-- `Image.new('RGB', (w, h))` — a black, opaque canvas without an alpha
channel. -/
def newRGB (w h : Nat) : Img := ⟨w, h, ImgMode.RGB, fun _ _ => (0, 0, 0)⟩

/-- `base.paste(im, (ox, oy))`: pixels inside the pasted rectangle come
from `im`; the rest, and the size and mode of `base`, are unchanged. -/
def pasteAt (base im : Img) (ox oy : Nat) : Img :=
  { base with
    px := fun x y =>
      if ox ≤ x ∧ x < ox + im.width ∧ oy ≤ y ∧ y < oy + im.height then
        im.px (x - ox) (y - oy)
      else base.px x y }

/-- The top image as used on merge_images.py lines 57-59: kept as is when
already 3488×1984, otherwise resized to 3488×1984. -/
def mergeTop (resize : Img → Nat → Nat → Img) (first : Img) : Img :=
  if first.width = 3488 ∧ first.height = 1984 then first
  else resize first 3488 1984

/-- The bottom image as used on merge_images.py line 62: always resized to
3488×1993. -/
def mergeBottom (resize : Img → Nat → Nat → Img) (second : Img) : Img :=
  resize second 3488 1993

/-- The pixel geometry of `merge_images` (merge_images.py lines 42-70): a
fresh RGB canvas of 3488×(1984+1993) with the top image pasted at (0,0) and
the bottom image pasted at (0,1984).  `resize` stands for PIL's
`Image.resize(..., Image.LANCZOS)`; the only property of it this code
relies on is that the result has the requested size.  (The metadata
re-embedding part of the source function, lines 72-110, addresses the EXIF
collaborator and carries no pixel geometry.) -/
def merge_images (resize : Img → Nat → Nat → Img) (first second : Img) : Img :=
  pasteAt (pasteAt (newRGB 3488 (1984 + 1993)) (mergeTop resize first) 0 0)
    (mergeBottom resize second) 0 1984

/-- C7: for any two input images of any sizes, the composite is exactly
3488×3977 with no alpha channel; rows [0,1984) show the top image (resized
to 3488×1984 unless already of that size) and rows [1984,3977) show the
bottom image resized to 3488×1993, pasted at (0,1984). -/
theorem merge_images_geometry (resize : Img → Nat → Nat → Img)
    (hres : ∀ i w h, (resize i w h).width = w ∧ (resize i w h).height = h)
    (first second : Img) :
    (merge_images resize first second).width = 3488 ∧
    (merge_images resize first second).height = 3977 ∧
    (merge_images resize first second).mode = ImgMode.RGB ∧
    (mergeTop resize first).width = 3488 ∧
    (mergeTop resize first).height = 1984 ∧
    (mergeBottom resize second).width = 3488 ∧
    (mergeBottom resize second).height = 1993 ∧
    (∀ x y, x < 3488 → y < 1984 →
      (merge_images resize first second).px x y =
        (mergeTop resize first).px x y) ∧
    (∀ x y, x < 3488 → 1984 ≤ y → y < 3977 →
      (merge_images resize first second).px x y =
        (mergeBottom resize second).px x (y - 1984)) := by
  have htw : (mergeTop resize first).width = 3488 := by
    unfold mergeTop
    split
    · rename_i h
      exact h.1
    · exact (hres first 3488 1984).1
  have hth : (mergeTop resize first).height = 1984 := by
    unfold mergeTop
    split
    · rename_i h
      exact h.2
    · exact (hres first 3488 1984).2
  have hbw : (mergeBottom resize second).width = 3488 :=
    (hres second 3488 1993).1
  have hbh : (mergeBottom resize second).height = 1993 :=
    (hres second 3488 1993).2
  refine ⟨rfl, rfl, rfl, htw, hth, hbw, hbh, ?_, ?_⟩
  · intro x y hx hy
    unfold merge_images pasteAt
    simp only [newRGB]
    rw [if_neg (by rw [hbw, hbh]; omega), if_pos (by rw [htw, hth]; omega)]
    simp
  · intro x y hx hy1 hy2
    unfold merge_images pasteAt
    simp only [newRGB]
    rw [if_pos (by rw [hbw, hbh]; omega)]
    simp

/-- Witness for C7: the geometry at a concrete resize function and two
concrete images of unrelated sizes. -/
theorem merge_images_geometry_witness :
    (merge_images (fun _ w h => ⟨w, h, ImgMode.RGB, fun _ _ => (0, 0, 0)⟩)
        (newRGB 10 20) (newRGB 30 40)).width = 3488 ∧
    (merge_images (fun _ w h => ⟨w, h, ImgMode.RGB, fun _ _ => (0, 0, 0)⟩)
        (newRGB 10 20) (newRGB 30 40)).height = 3977 :=
  ⟨(merge_images_geometry (fun _ w h => ⟨w, h, ImgMode.RGB, fun _ _ => (0, 0, 0)⟩)
      (fun _ _ _ => ⟨rfl, rfl⟩) (newRGB 10 20) (newRGB 30 40)).1,
   (merge_images_geometry (fun _ w h => ⟨w, h, ImgMode.RGB, fun _ _ => (0, 0, 0)⟩)
      (fun _ _ _ => ⟨rfl, rfl⟩) (newRGB 10 20) (newRGB 30 40)).2.1⟩

/-! ## Bytes and UTF-8, as Python `bytes.decode('utf-8')` -/

/-- Strict UTF-8 decoding of a byte list — Python `bytes.decode('utf-8')` —
failing (`UnicodeDecodeError`) on stray continuation bytes, overlong
encodings, surrogates, values beyond U+10FFFF and truncated sequences. -/
def utf8DecodeList : List Nat → Option (List Char)
  | [] => some []
  | b :: rest =>
    if b < 0x80 then
      (utf8DecodeList rest).map (fun cs => Char.ofNat b :: cs)
    else if b < 0xC2 then none
    else if b < 0xE0 then
      match rest with
      | b2 :: r =>
        if 0x80 ≤ b2 ∧ b2 < 0xC0 then
          (utf8DecodeList r).map
            (fun cs => Char.ofNat ((b - 0xC0) * 0x40 + (b2 - 0x80)) :: cs)
        else none
      | [] => none
    else if b < 0xF0 then
      match rest with
      | b2 :: b3 :: r =>
        if 0x80 ≤ b2 ∧ b2 < 0xC0 ∧ 0x80 ≤ b3 ∧ b3 < 0xC0 then
          let v := (b - 0xE0) * 0x1000 + (b2 - 0x80) * 0x40 + (b3 - 0x80)
          if 0x800 ≤ v ∧ ¬ (0xD800 ≤ v ∧ v < 0xE000) then
            (utf8DecodeList r).map (fun cs => Char.ofNat v :: cs)
          else none
        else none
      | _ => none
    else if b < 0xF5 then
      match rest with
      | b2 :: b3 :: b4 :: r =>
        if 0x80 ≤ b2 ∧ b2 < 0xC0 ∧ 0x80 ≤ b3 ∧ b3 < 0xC0 ∧
            0x80 ≤ b4 ∧ b4 < 0xC0 then
          let v := (b - 0xF0) * 0x40000 + (b2 - 0x80) * 0x1000 +
            (b3 - 0x80) * 0x40 + (b4 - 0x80)
          if 0x10000 ≤ v ∧ v < 0x110000 then
            (utf8DecodeList r).map (fun cs => Char.ofNat v :: cs)
          else none
        else none
      | _ => none
    else none

/-- The strict decode, as a `String`. -/
def utf8Decode (b : List Nat) : Option String :=
  (utf8DecodeList b).map String.mk

/-- Python `bytes.decode('utf-8', errors='ignore')`: undecodable bytes are
skipped.  (Applied in the source only after a strict decode failed; no
claim depends on the exact resynchronisation, so one byte is skipped at a
failure.)  The fuel is the byte count; every step consumes at least one
byte. -/
def utf8DecodeIgnoreAux : Nat → List Nat → List Char
  | 0, _ => []
  | _ + 1, [] => []
  | fuel + 1, b :: rest =>
    if b < 0x80 then Char.ofNat b :: utf8DecodeIgnoreAux fuel rest
    else if b < 0xC2 then utf8DecodeIgnoreAux fuel rest
    else if b < 0xE0 then
      match rest with
      | b2 :: r =>
        if 0x80 ≤ b2 ∧ b2 < 0xC0 then
          Char.ofNat ((b - 0xC0) * 0x40 + (b2 - 0x80)) :: utf8DecodeIgnoreAux fuel r
        else utf8DecodeIgnoreAux fuel rest
      | [] => []
    else if b < 0xF0 then
      match rest with
      | b2 :: b3 :: r =>
        if 0x80 ≤ b2 ∧ b2 < 0xC0 ∧ 0x80 ≤ b3 ∧ b3 < 0xC0 then
          let v := (b - 0xE0) * 0x1000 + (b2 - 0x80) * 0x40 + (b3 - 0x80)
          if 0x800 ≤ v ∧ ¬ (0xD800 ≤ v ∧ v < 0xE000) then
            Char.ofNat v :: utf8DecodeIgnoreAux fuel r
          else utf8DecodeIgnoreAux fuel rest
        else utf8DecodeIgnoreAux fuel rest
      | _ => utf8DecodeIgnoreAux fuel rest
    else if b < 0xF5 then
      match rest with
      | b2 :: b3 :: b4 :: r =>
        if 0x80 ≤ b2 ∧ b2 < 0xC0 ∧ 0x80 ≤ b3 ∧ b3 < 0xC0 ∧
            0x80 ≤ b4 ∧ b4 < 0xC0 then
          let v := (b - 0xF0) * 0x40000 + (b2 - 0x80) * 0x1000 +
            (b3 - 0x80) * 0x40 + (b4 - 0x80)
          if 0x10000 ≤ v ∧ v < 0x110000 then
            Char.ofNat v :: utf8DecodeIgnoreAux fuel r
          else utf8DecodeIgnoreAux fuel rest
        else utf8DecodeIgnoreAux fuel rest
      | _ => utf8DecodeIgnoreAux fuel rest
    else utf8DecodeIgnoreAux fuel rest

/-- The lossy decode at full fuel. -/
def utf8DecodeIgnore (b : List Nat) : List Char := utf8DecodeIgnoreAux b.length b

/-- UTF-8 bytes of an ASCII-only string, used to build concrete byte
inputs. -/
def asciiBytes (s : String) : List Nat := s.data.map Char.toNat

/-! ## JSON, as Python `json.loads` -/

/-- Parsed JSON values.  Objects carry their fields with unique keys, in
first-insertion order, exactly as Python's decoder builds its dict (later
duplicate keys overwrite the value in place, see `setField`).  A number
with a fraction or exponent keeps its raw token (`numRaw`); the extraction
logic never reads a numeric value. -/
inductive Json where
  | null
  | bool (b : Bool)
  | num (n : Int)
  | numRaw (tok : List Char)
  | str (s : String)
  | arr (elems : List Json)
  | obj (fields : List (String × Json))

/-- JSON whitespace accepted by Python's decoder between tokens. -/
def jsonWs (c : Char) : Bool := c = ' ' || c = '\t' || c = '\n' || c = '\r'

/-- Skip JSON whitespace. -/
def skipJsonWs (cs : List Char) : List Char := cs.dropWhile jsonWs

/-- Hexadecimal value of a character, if any. -/
def hexVal (c : Char) : Option Nat :=
  if '0' ≤ c ∧ c ≤ '9' then some (c.toNat - 48)
  else if 'a' ≤ c ∧ c ≤ 'f' then some (c.toNat - 87)
  else if 'A' ≤ c ∧ c ≤ 'F' then some (c.toNat - 55)
  else none

/-- Parse the remainder of a JSON string literal, the opening quote already
consumed: the content and the input past the closing quote.  Python's
decoder rejects unescaped control characters and unknown escapes; a
`\uXXXX` escape yields the scalar value (surrogate escapes occur in no
input considered here and are rejected). -/
def parseJsonString : List Char → Option (List Char × List Char)
  | [] => none
  | c :: rest =>
    if c = '"' then some ([], rest)
    else if c = '\\' then
      match rest with
      | [] => none
      | e :: rest2 =>
        if e = 'u' then
          match rest2 with
          | h1 :: h2 :: h3 :: h4 :: rest3 =>
            match hexVal h1, hexVal h2, hexVal h3, hexVal h4 with
            | some v1, some v2, some v3, some v4 =>
              let v := ((v1 * 16 + v2) * 16 + v3) * 16 + v4
              if 0xD800 ≤ v ∧ v < 0xE000 then none
              else (parseJsonString rest3).map
                (fun pr => (Char.ofNat v :: pr.1, pr.2))
            | _, _, _, _ => none
          | _ => none
        else
          let esc : Option Char :=
            if e = '"' then some '"'
            else if e = '\\' then some '\\'
            else if e = '/' then some '/'
            else if e = 'b' then some (Char.ofNat 8)
            else if e = 'f' then some (Char.ofNat 12)
            else if e = 'n' then some '\n'
            else if e = 'r' then some '\r'
            else if e = 't' then some '\t'
            else none
          match esc with
          | some ch => (parseJsonString rest2).map (fun pr => (ch :: pr.1, pr.2))
          | none => none
    else if c.toNat < 0x20 then none
    else (parseJsonString rest).map (fun pr => (c :: pr.1, pr.2))

/-- Parse a JSON number token (first character a digit or `-`), following
Python's grammar `-? (0 | [1-9][0-9]*) frac? exp?`.  A pure integer becomes
`Json.num`; with a fraction or an exponent the raw token is kept. -/
def parseJsonNumber (cs : List Char) : Option (Json × List Char) :=
  let sgnSplit : List Char × List Char :=
    match cs with
    | '-' :: t => (['-'], t)
    | _ => ([], cs)
  match sgnSplit.2.span Char.isDigit with
  | (intDigits, rest1) =>
    if intDigits = [] then none
    else if 1 < intDigits.length ∧ intDigits.headD '0' = '0' then none
    else
      let fracSplit : List Char × List Char × Bool :=
        match rest1 with
        | '.' :: t =>
          match t.span Char.isDigit with
          | (fd, r) => ('.' :: fd, r, !fd.isEmpty)
        | _ => ([], rest1, true)
      match fracSplit with
      | (fracChars, rest2, fracOk) =>
        let expSplit : List Char × List Char × Bool :=
          match rest2 with
          | c :: t =>
            if c = 'e' ∨ c = 'E' then
              let sgn2Split : List Char × List Char :=
                match t with
                | '+' :: u => (['+'], u)
                | '-' :: u => (['-'], u)
                | _ => ([], t)
              match sgn2Split.2.span Char.isDigit with
              | (ed, r) => (c :: (sgn2Split.1 ++ ed), r, !ed.isEmpty)
            else ([], rest2, true)
          | [] => ([], rest2, true)
        match expSplit with
        | (expChars, rest3, expOk) =>
          if fracOk && expOk then
            if fracChars = [] ∧ expChars = [] then
              some (Json.num (if sgnSplit.1 = [] then (natOfDigits intDigits : Int)
                else -(natOfDigits intDigits : Int)), rest1)
            else some (Json.numRaw (sgnSplit.1 ++ intDigits ++ fracChars ++ expChars),
              rest3)
          else none

/-- Assignment into the dict being built while parsing an object: an
existing key keeps its position and receives the new value, a new key is
appended. -/
def setField : List (String × Json) → String → Json → List (String × Json)
  | [], k, v => [(k, v)]
  | (k', v') :: fs, k, v =>
    if k' = k then (k, v) :: fs else (k', v') :: setField fs k v

mutual

/-- Parse one JSON value (leading whitespace already skipped); the fuel
decreases on every recursive call and `pyJsonLoads` supplies more than any
input can use. -/
def parseJsonValue : Nat → List Char → Option (Json × List Char)
  | 0, _ => none
  | _ + 1, [] => none
  | fuel + 1, c :: rest =>
    if c = 'n' then
      match rest with
      | 'u' :: 'l' :: 'l' :: r => some (Json.null, r)
      | _ => none
    else if c = 't' then
      match rest with
      | 'r' :: 'u' :: 'e' :: r => some (Json.bool true, r)
      | _ => none
    else if c = 'f' then
      match rest with
      | 'a' :: 'l' :: 's' :: 'e' :: r => some (Json.bool false, r)
      | _ => none
    else if c = '"' then
      (parseJsonString rest).map (fun pr => (Json.str (String.mk pr.1), pr.2))
    else if c = '-' ∨ c.isDigit then
      parseJsonNumber (c :: rest)
    else if c = '[' then
      match skipJsonWs rest with
      | ']' :: r => some (Json.arr [], r)
      | r1 => (parseJsonArrayItems fuel r1).map (fun pr => (Json.arr pr.1, pr.2))
    else if c = Char.ofNat 123 then
      match skipJsonWs rest with
      | c2 :: r2 =>
        if c2 = Char.ofNat 125 then some (Json.obj [], r2)
        else (parseJsonObjectItems fuel [] (c2 :: r2)).map
          (fun pr => (Json.obj pr.1, pr.2))
      | [] => none
    else none

/-- Parse the elements of a (nonempty) array, positioned at an element. -/
def parseJsonArrayItems : Nat → List Char → Option (List Json × List Char)
  | 0, _ => none
  | fuel + 1, cs =>
    match parseJsonValue fuel (skipJsonWs cs) with
    | none => none
    | some (v, r) =>
      match skipJsonWs r with
      | ',' :: r2 => (parseJsonArrayItems fuel r2).map (fun pr => (v :: pr.1, pr.2))
      | ']' :: r2 => some ([v], r2)
      | _ => none

/-- Parse the members of a (nonempty) object, positioned at a key, filling
the dict through `setField`. -/
def parseJsonObjectItems : Nat → List (String × Json) → List Char →
    Option (List (String × Json) × List Char)
  | 0, _, _ => none
  | fuel + 1, acc, cs =>
    match skipJsonWs cs with
    | '"' :: r =>
      match parseJsonString r with
      | none => none
      | some (k, r2) =>
        match skipJsonWs r2 with
        | ':' :: r3 =>
          match parseJsonValue fuel (skipJsonWs r3) with
          | none => none
          | some (v, r4) =>
            match skipJsonWs r4 with
            | ',' :: r5 => parseJsonObjectItems fuel (setField acc (String.mk k) v) r5
            | c5 :: r5 =>
              if c5 = Char.ofNat 125 then some (setField acc (String.mk k) v, r5)
              else none
            | [] => none
        | _ => none
    | _ => none

end

/-- Python `json.loads`: one JSON document with only whitespace around it.
The fuel `2 * length + 4` strictly exceeds the number of recursive calls
any input can cause (each nesting level and each element consumes at least
one character before spending at most two units of fuel). -/
def pyJsonLoads (s : String) : Option Json :=
  match parseJsonValue (2 * s.data.length + 4) (skipJsonWs s.data) with
  | some (j, rest) => if skipJsonWs rest = [] then some j else none
  | none => none

/-- Containment of `sub` as a contiguous run, scanning every start. -/
def containsSub (sub : List Char) : List Char → Bool
  | [] => sub.isEmpty
  | c :: rest => sub.isPrefixOf (c :: rest) || containsSub sub rest

/-- Python `sub in s` on strings: substring containment. -/
def strContains (sub s : String) : Bool := containsSub sub.data s.data

/-! ## extract_prompt_from_image (extract_prompts.py, lines 25-145) -/

/-- A value of the `img.info` dict: a string, a byte string (such as the
`exif` entry), or a value of any other type (only `isinstance` tests ever
touch those). -/
inductive MetaVal where
  | mstr (s : String)
  | mbytes (b : List Nat)
  | mother

/-- The metadata of an image PIL opened successfully: the entries of
`img.info` in iteration order (PIL's dict has unique keys). -/
structure ImageInfo where
  entries : List (String × MetaVal)

/-- The EXIF `UserComment` value as `piexif.load` hands it over (line 64):
raw bytes; a nonempty tuple whose first element is bytes; a nonempty tuple
whose first element is not bytes, carried as its `str(...)` rendering; or
any other value, carried as its `str(...)` rendering. -/
inductive UserComment where
  | ucBytes (b : List Nat)
  | ucTupleBytes (b : List Nat)
  | ucTupleOther (s : String)
  | ucOther (s : String)

/-- The ten-byte prefix tested by
`user_comment.startswith(b'UNICODE\x00\x00\x00')` (line 75): the seven
ASCII letters of `UNICODE` and three NUL bytes. -/
def unicodeMarker : List Nat := [85, 78, 73, 67, 79, 68, 69, 0, 0, 0]

/-- Decoding of a `UserComment` byte payload (lines 68-81; lines 83-93 run
the same logic on a tuple's first element): strict UTF-8 first; only when
that raised, the `UNICODE` marker test with an 8-byte strip and a strict
decode of the remainder (a failure inside this recovery is swallowed by the
bare `except`, leaving `metadata_str = None`), else the lossy decode. -/
def decodeUCBytes (b : List Nat) : Option String :=
  match utf8Decode b with
  | some s => some s
  | none =>
    if unicodeMarker.isPrefixOf b then utf8Decode (b.drop 8)
    else some (String.mk (utf8DecodeIgnore b))

/-- `metadata_str` as computed on lines 66-97. -/
def decodeUserComment : UserComment → Option String
  | .ucBytes b => decodeUCBytes b
  | .ucTupleBytes b => decodeUCBytes b
  | .ucTupleOther s => some s
  | .ucOther s => some s

/-- Python's `\s` as used by `re.search` on a `str` (ASCII part; no input
considered here holds Unicode whitespace). -/
def pyRegexWs (c : Char) : Bool := pyWs c

/-- One attempt of `"prompt"\s*:\s*"([^"]+)"` at a fixed start: the literal
`"prompt"`, whitespace, a colon, whitespace, a quote, then one or more
non-quote characters which the next character — a quote — must end.  The
greedy pieces leave the engine no alternative at a given start: `\s*`
cannot absorb the colon and `[^"]+` cannot cross a quote. -/
def promptRegexAt (cs : List Char) : Option (List Char) :=
  match cs with
  | '"' :: 'p' :: 'r' :: 'o' :: 'm' :: 'p' :: 't' :: '"' :: rest =>
    match rest.dropWhile pyRegexWs with
    | ':' :: r2 =>
      match r2.dropWhile pyRegexWs with
      | '"' :: r3 =>
        match r3.span (fun c => c != '"') with
        | (val, r4) =>
          match val, r4 with
          | [], _ => none
          | _ :: _, '"' :: _ => some val
          | _, _ => none
      | _ => none
    | _ => none
  | _ => none

/-- `re.search(r'"prompt"\s*:\s*"([^"]+)"', s)` (line 132): the match at
the leftmost start where the pattern succeeds; returns group 1. -/
def promptRegexSearch : List Char → Option (List Char)
  | [] => none
  | c :: rest =>
    match promptRegexAt (c :: rest) with
    | some v => some v
    | none => promptRegexSearch rest

/-- Lines 48-51 / 112-115 / 122-125: given the value of
`sui_image_params`, the prompt is returned when that value is a dict whose
`prompt` entry is a truthy string whose strip is nonempty. -/
def promptOfSuiParams : Json → Option String
  | .obj fields =>
    match fields.lookup "prompt" with
    | some (.str p) => if p ≠ "" ∧ pyStrip p ≠ "" then some (pyStrip p) else none
    | _ => none
  | _ => none

/-- One iteration of the loop over `info.items()` (lines 38-55) on a single
value: only strings are considered; a parse failure or an unexpected shape
moves on (`continue`). -/
def directAttempt : MetaVal → Option String
  | .mstr v =>
    match pyJsonLoads v with
    | some (.obj fields) =>
      match fields.lookup "sui_image_params" with
      | some sp => promptOfSuiParams sp
      | none => none
    | _ => none
  | _ => none

/-- The loop of lines 38-55: the first entry whose value yields a prompt. -/
def scanInfoEntries : List (String × MetaVal) → Option String
  | [] => none
  | (_, v) :: rest =>
    match directAttempt v with
    | some p => some p
    | none => scanInfoEntries rest

/-- The `parameters` route (lines 106-117): when the outer dict has a
string-valued `parameters` entry, parse that string and look for
`sui_image_params.prompt`; every failure inside is swallowed by the inner
`except` on line 116.  A nested parse to a non-dict contributes nothing:
`'sui_image_params' in params_json` is `False` on a list or a string miss,
and both a `TypeError` on other types and the `TypeError` that a hit's
indexing raises land in the same inner `except`. -/
def exifNestedRoute (fields : List (String × Json)) : Option String :=
  match fields.lookup "parameters" with
  | some (Json.str pv) =>
    match pyJsonLoads pv with
    | some (Json.obj pfields) =>
      match pfields.lookup "sui_image_params" with
      | some sp => promptOfSuiParams sp
      | none => none
    | _ => none
  | _ => none

/-- Lines 99-136, applied to the decoded `metadata_str`: parse it as JSON;
on a dict, try the `parameters` route and then the direct
`sui_image_params` route (line 120); a successful parse to a non-dict
returns nothing (line 105 guards the whole block).  Only when the outer
parse raises does the regex fallback run (lines 126-136), and only if the
decoded string textually contains both `sui_image_params` and `prompt`. -/
def exifParseMetadata (ms : String) : Option String :=
  match pyJsonLoads ms with
  | some (Json.obj fields) =>
    match exifNestedRoute fields with
    | some p => some p
    | none =>
      match fields.lookup "sui_image_params" with
      | some sp => promptOfSuiParams sp
      | none => none
  | some _ => none
  | none =>
    if strContains "sui_image_params" ms && strContains "prompt" ms then
      (promptRegexSearch ms.data).map (fun v => pyStrip (String.mk v))
    else none

/-- `extract_prompt_from_image` (lines 25-145) for an image PIL opened
successfully, given its `info` dict.  `piexifAvailable` models the import
guard (lines 7-11, 58).  `piexifUserComment` models `piexif.load` followed
by the `Exif` section's `UserComment` lookup (lines 60-64): `none` covers
a load failure (caught on line 137) and an absent tag alike; a non-bytes
`exif` entry makes `piexif.load` raise, also caught on line 137.  An empty
`metadata_str` fails the `if metadata_str:` test on line 100, skipping the
parse. -/
def extract_prompt_from_image (piexifAvailable : Bool)
    (piexifUserComment : List Nat → Option UserComment)
    (img : ImageInfo) : Option String :=
  match scanInfoEntries img.entries with
  | some p => some p
  | none =>
    match img.entries.lookup "exif", piexifAvailable with
    | some (MetaVal.mbytes eb), true =>
      match piexifUserComment eb with
      | some uc =>
        match decodeUserComment uc with
        | some ms => if ms = "" then none else exifParseMetadata ms
        | none => none
      | none => none
    | _, _ => none

/-! ### Every returned prompt is its own strip -/

theorem pyStripList_idem (cs : List Char) :
    pyStripList (pyStripList cs) = pyStripList cs := by
  have hL : pyStripList cs = List.rdropWhile pyWs (cs.dropWhile pyWs) := rfl
  have h1 : (pyStripList cs).dropWhile pyWs = pyStripList cs := by
    cases hps : pyStripList cs with
    | nil => rfl
    | cons a t =>
      have hpre : pyStripList cs <+: cs.dropWhile pyWs := by
        rw [hL]
        exact List.rdropWhile_prefix _ _
      rw [hps] at hpre
      obtain ⟨tail, ht⟩ := hpre
      have h2 := List.dropWhile_idempotent pyWs cs
      rw [List.dropWhile_eq_self_iff, ← ht] at h2
      have ha : ¬ pyWs a = true := by
        have := h2 (by simp)
        simpa using this
      rw [List.dropWhile_cons, if_neg ha]
  calc pyStripList (pyStripList cs)
      = List.rdropWhile pyWs ((pyStripList cs).dropWhile pyWs) := rfl
    _ = List.rdropWhile pyWs (pyStripList cs) := by rw [h1]
    _ = pyStripList cs := by
        rw [hL]
        exact List.rdropWhile_idempotent _ _

theorem pyStrip_idem (s : String) : pyStrip (pyStrip s) = pyStrip s := by
  unfold pyStrip
  rw [show (String.mk (pyStripList s.data)).data = pyStripList s.data from rfl,
    pyStripList_idem]

theorem promptOfSuiParams_strip (j : Json) (q : String)
    (h : promptOfSuiParams j = some q) : pyStrip q = q := by
  unfold promptOfSuiParams at h
  split at h
  · split at h
    · split at h
      · cases h
        exact pyStrip_idem _
      · cases h
    · cases h
  · cases h

theorem directAttempt_strip (v : MetaVal) (q : String)
    (h : directAttempt v = some q) : pyStrip q = q := by
  unfold directAttempt at h
  split at h
  · split at h
    · split at h
      · exact promptOfSuiParams_strip _ q h
      · cases h
    · cases h
  · cases h

theorem scanInfoEntries_strip :
    ∀ (es : List (String × MetaVal)) (q : String),
      scanInfoEntries es = some q → pyStrip q = q
  | [], _, h => nomatch h
  | (_, v) :: rest, q, h => by
    simp only [scanInfoEntries] at h
    cases hd : directAttempt v with
    | some p =>
      rw [hd] at h
      cases h
      exact directAttempt_strip v _ hd
    | none =>
      rw [hd] at h
      exact scanInfoEntries_strip rest q h

theorem exifNestedRoute_strip (fields : List (String × Json)) (q : String)
    (h : exifNestedRoute fields = some q) : pyStrip q = q := by
  unfold exifNestedRoute at h
  split at h
  · split at h
    · split at h
      · exact promptOfSuiParams_strip _ q h
      · cases h
    · cases h
  · cases h

theorem exifParseMetadata_strip (ms q : String)
    (h : exifParseMetadata ms = some q) : pyStrip q = q := by
  unfold exifParseMetadata at h
  split at h
  · split at h
    · rename_i heq
      cases h
      exact exifNestedRoute_strip _ _ heq
    · split at h
      · exact promptOfSuiParams_strip _ q h
      · cases h
  · cases h
  · split at h
    · rw [Option.map_eq_some'] at h
      obtain ⟨v, _, hv⟩ := h
      rw [← hv]
      exact pyStrip_idem _
    · cases h

theorem extract_prompt_strip (pa : Bool)
    (puc : List Nat → Option UserComment) (img : ImageInfo) (q : String)
    (h : extract_prompt_from_image pa puc img = some q) : pyStrip q = q := by
  unfold extract_prompt_from_image at h
  split at h
  · rename_i heq
    cases h
    exact scanInfoEntries_strip img.entries _ heq
  · split at h
    · split at h
      · split at h
        · split at h
          · cases h
          · exact exifParseMetadata_strip _ _ h
        · cases h
      · cases h
    · cases h

theorem process_folder_no_empty (ep : String → Option String)
    (files : List String) (p : String) (h : p ∈ process_folder ep files) :
    p ≠ "" := by
  unfold process_folder at h
  rw [List.mem_filterMap] at h
  obtain ⟨f, _, hf⟩ := h
  split at hf
  · split at hf
    · cases hf
    · rename_i hne
      cases hf
      exact hne
  · cases hf

/-! ### Every non-fallback path returns a nonempty prompt -/

theorem promptOfSuiParams_ne_empty (j : Json) (q : String)
    (h : promptOfSuiParams j = some q) : q ≠ "" := by
  unfold promptOfSuiParams at h
  split at h
  · split at h
    · split at h
      · rename_i hc
        cases h
        exact hc.2
      · cases h
    · cases h
  · cases h

theorem directAttempt_ne_empty (v : MetaVal) (q : String)
    (h : directAttempt v = some q) : q ≠ "" := by
  unfold directAttempt at h
  split at h
  · split at h
    · split at h
      · exact promptOfSuiParams_ne_empty _ q h
      · cases h
    · cases h
  · cases h

theorem scanInfoEntries_ne_empty :
    ∀ (es : List (String × MetaVal)) (q : String),
      scanInfoEntries es = some q → q ≠ ""
  | [], _, h => nomatch h
  | (_, v) :: rest, q, h => by
    simp only [scanInfoEntries] at h
    cases hd : directAttempt v with
    | some p =>
      rw [hd] at h
      cases h
      exact directAttempt_ne_empty v _ hd
    | none =>
      rw [hd] at h
      exact scanInfoEntries_ne_empty rest q h

theorem exifNestedRoute_ne_empty (fields : List (String × Json)) (q : String)
    (h : exifNestedRoute fields = some q) : q ≠ "" := by
  unfold exifNestedRoute at h
  split at h
  · split at h
    · split at h
      · exact promptOfSuiParams_ne_empty _ q h
      · cases h
    · cases h
  · cases h

/-- When the outer parse of the decoded UserComment string succeeds, the
regex fallback is not reached and the two JSON routes return only nonempty
prompts. -/
theorem exifParseMetadata_ne_empty (ms q : String)
    (hparse : pyJsonLoads ms ≠ none)
    (h : exifParseMetadata ms = some q) : q ≠ "" := by
  unfold exifParseMetadata at h
  split at h
  · split at h
    · rename_i heq
      cases h
      exact exifNestedRoute_ne_empty _ _ heq
    · split at h
      · exact promptOfSuiParams_ne_empty _ q h
      · cases h
  · cases h
  · rename_i h0
    exact absurd h0 hparse

/-- An empty prompt can only come out of the regex fallback: whenever
`extract_prompt_from_image` returns `""`, the EXIF route was taken, the
outer JSON parse of the decoded UserComment string failed, and the regex
matched a whitespace-only group. -/
theorem extract_empty_only_regex (pa : Bool)
    (puc : List Nat → Option UserComment) (img : ImageInfo)
    (h : extract_prompt_from_image pa puc img = some "") :
    ∃ eb uc ms, img.entries.lookup "exif" = some (MetaVal.mbytes eb) ∧
      pa = true ∧ puc eb = some uc ∧ decodeUserComment uc = some ms ∧
      pyJsonLoads ms = none ∧
      (promptRegexSearch ms.data).map (fun v => pyStrip (String.mk v)) =
        some "" := by
  unfold extract_prompt_from_image at h
  split at h
  · rename_i heq
    cases h
    exact absurd rfl (scanInfoEntries_ne_empty img.entries "" heq)
  · split at h
    · rename_i eb heq1
      split at h
      · rename_i uc hequc
        split at h
        · rename_i ms heqms
          split at h
          · cases h
          · cases hparse : pyJsonLoads ms with
            | some j =>
              refine absurd rfl (exifParseMetadata_ne_empty ms "" ?_ h)
              rw [hparse]
              exact Option.some_ne_none _
            | none =>
              refine ⟨eb, uc, ms, heq1, rfl, hequc, heqms, hparse, ?_⟩
              unfold exifParseMetadata at h
              simp only [hparse] at h
              split at h
              · exact h
              · cases h
        · cases h
      · cases h
    · cases h

/-! ### Concrete metadata samples (all ASCII) -/

/-- The WebP-style UserComment document of the spec's fallback test:
`{"parameters": "{\"sui_image_params\":{\"prompt\":\"a cat\"}}"}`. -/
def ucPromptJson : String :=
  "\x7b\"parameters\": \"\x7b\\\"sui_image_params\\\":\x7b\\\"prompt\\\":\\\"a cat\\\"\x7d\x7d\"\x7d"

/-- A direct metadata document
`{"sui_image_params": {"prompt": " direct "}}`. -/
def directPromptJson : String :=
  "\x7b\"sui_image_params\": \x7b\"prompt\": \" direct \"\x7d\x7d"

/-- An invalid JSON document (trailing comma) holding `"prompt": "a dog"`:
`{"sui_image_params": {"prompt": "a dog",}}`. -/
def trailingCommaJson : String :=
  "\x7b\"sui_image_params\": \x7b\"prompt\": \"a dog\",\x7d\x7d"

/-- A valid outer document whose nested `parameters` parse fails:
`{"parameters": "bad{", "prompt": "a dog", "sui_image_params": 1}`. -/
def nestedFailJson : String :=
  "\x7b\"parameters\": \"bad\x7b\", \"prompt\": \"a dog\", \"sui_image_params\": 1\x7d"

/-! ### C1: the direct strategy wins and EXIF is never consulted -/

theorem scanInfoEntries_first_hit :
    ∀ (es1 : List (String × MetaVal)) (k : String) (v : MetaVal)
      (es2 : List (String × MetaVal)) (p : String),
      (∀ e ∈ es1, directAttempt e.2 = none) → directAttempt v = some p →
      scanInfoEntries (es1 ++ (k, v) :: es2) = some p
  | [], _, v, es2, p, _, h2 => by simp only [List.nil_append, scanInfoEntries, h2]
  | e :: es1, k, v, es2, p, h1, h2 => by
    obtain ⟨ek, ev⟩ := e
    have he : directAttempt ev = none := h1 (ek, ev) (by simp)
    simp only [List.cons_append, scanInfoEntries, he]
    exact scanInfoEntries_first_hit es1 k v es2 p
      (fun x hx => h1 x (by simp [hx])) h2

/-- C1: when the container metadata holds a direct string-valued entry that
parses as JSON with a nonempty `sui_image_params.prompt` (earlier entries
yielding nothing) and also an EXIF UserComment carrying a prompt,
extraction returns the direct entry's prompt, trimmed: the priority-ordered
search stops at the first successful strategy, and the result is the same
under any EXIF decoder whatsoever — the EXIF path is never consulted. -/
theorem extract_prompt_direct_priority
    (pa : Bool) (puc puc' : List Nat → Option UserComment)
    (es1 es2 : List (String × MetaVal)) (k v : String)
    (fields sp : List (String × Json)) (p : String)
    (eb : List Nat) (uc : UserComment) (ms : String)
    (hprev : ∀ e ∈ es1, directAttempt e.2 = none)
    (hparse : pyJsonLoads v = some (Json.obj fields))
    (hsui : fields.lookup "sui_image_params" = some (Json.obj sp))
    (hp : sp.lookup "prompt" = some (Json.str p))
    (hne : pyStrip p ≠ "")
    (hexif : (es1 ++ (k, MetaVal.mstr v) :: es2).lookup "exif" =
      some (MetaVal.mbytes eb))
    (huc : puc eb = some uc)
    (hdec : decodeUserComment uc = some ms)
    (hms : exifParseMetadata ms ≠ none) :
    extract_prompt_from_image pa puc ⟨es1 ++ (k, MetaVal.mstr v) :: es2⟩ =
      some (pyStrip p) ∧
    extract_prompt_from_image pa puc ⟨es1 ++ (k, MetaVal.mstr v) :: es2⟩ =
      extract_prompt_from_image pa puc' ⟨es1 ++ (k, MetaVal.mstr v) :: es2⟩ := by
  have hda : directAttempt (MetaVal.mstr v) = some (pyStrip p) := by
    simp only [directAttempt, hparse, hsui, promptOfSuiParams, hp]
    rw [if_pos ⟨fun hcon => hne (by rw [hcon]; rfl), hne⟩]
  have hscan := scanInfoEntries_first_hit es1 k (MetaVal.mstr v) es2
    (pyStrip p) hprev hda
  constructor
  · unfold extract_prompt_from_image
    rw [hscan]
  · unfold extract_prompt_from_image
    rw [hscan]

/-- Witness for C1: a concrete image holding both a direct prompt
`" direct "` and an EXIF UserComment carrying `"a cat"`; the direct prompt
wins, trimmed, and disabling the EXIF decoder entirely changes nothing. -/
theorem extract_prompt_direct_priority_witness :
    extract_prompt_from_image true
      (fun _ => some (UserComment.ucBytes (asciiBytes ucPromptJson)))
      ⟨[("parameters", MetaVal.mstr directPromptJson),
        ("exif", MetaVal.mbytes [7])]⟩ = some (pyStrip " direct ") ∧
    extract_prompt_from_image true
      (fun _ => some (UserComment.ucBytes (asciiBytes ucPromptJson)))
      ⟨[("parameters", MetaVal.mstr directPromptJson),
        ("exif", MetaVal.mbytes [7])]⟩ =
    extract_prompt_from_image true (fun _ => none)
      ⟨[("parameters", MetaVal.mstr directPromptJson),
        ("exif", MetaVal.mbytes [7])]⟩ :=
  extract_prompt_direct_priority true
    (fun _ => some (UserComment.ucBytes (asciiBytes ucPromptJson)))
    (fun _ => none) [] [("exif", MetaVal.mbytes [7])] "parameters"
    directPromptJson
    [("sui_image_params", Json.obj [("prompt", Json.str " direct ")])]
    [("prompt", Json.str " direct ")] " direct " [7]
    (UserComment.ucBytes (asciiBytes ucPromptJson)) ucPromptJson
    (by simp) rfl rfl rfl (by decide) rfl rfl rfl
    (by rw [show exifParseMetadata ucPromptJson = some "a cat" from rfl]
        exact Option.some_ne_none _)

/-! ### C2: the UNICODE-marker recovery is dead code -/

/-- C2 (code bug): with the EXIF UserComment bytes `UNICODE\x00\x00\x00`
followed by the UTF-8 bytes of `ucPromptJson` as the only prompt source,
the code returns nothing instead of `"a cat"`: NUL bytes are valid UTF-8,
so the strict decode succeeds with the marker still attached (the
marker-stripping branch runs only after a `UnicodeDecodeError`), the JSON
parse of the prefixed string then fails, and the regex fallback cannot
match `"prompt"` against the escaped quotes `\"prompt\"`.  Without the
marker the very same document yields `"a cat"` — the behaviour the claim
and the spec's fallback test describe. -/
theorem extract_unicode_marker_bug :
    extract_prompt_from_image true
      (fun _ => some (UserComment.ucBytes
        (unicodeMarker ++ asciiBytes ucPromptJson)))
      ⟨[("exif", MetaVal.mbytes [1, 2, 3])]⟩ = none ∧
    utf8Decode (unicodeMarker ++ asciiBytes ucPromptJson) =
      some ("UNICODE\x00\x00\x00" ++ ucPromptJson) ∧
    pyJsonLoads ("UNICODE\x00\x00\x00" ++ ucPromptJson) = none ∧
    exifParseMetadata ucPromptJson = some "a cat" :=
  ⟨rfl, rfl, rfl, rfl⟩

/-! ### C3: the regex fallback fires only on an outer parse failure -/

/-- Counterexample to C3: `nestedFailJson` parses as a dict, its nested
`parameters` parse fails, the decoded string contains both
`sui_image_params` and `prompt` and even a literal `"prompt": "a dog"`
that the regex would capture — yet extraction returns nothing, because the
regex fallback lives in the `except` of the outer parse only. -/
theorem regex_fallback_nested_failure_cex :
    pyJsonLoads "bad\x7b" = none ∧
    strContains "sui_image_params" nestedFailJson = true ∧
    strContains "prompt" nestedFailJson = true ∧
    (promptRegexSearch nestedFailJson.data).map
      (fun v => pyStrip (String.mk v)) = some "a dog" ∧
    extract_prompt_from_image true
      (fun _ => some (UserComment.ucBytes (asciiBytes nestedFailJson)))
      ⟨[("exif", MetaVal.mbytes [1])]⟩ = none :=
  ⟨rfl, rfl, rfl, rfl, rfl⟩

/-- C3 (amended): the regex fallback runs exactly when the outer JSON parse
of the decoded UserComment string fails (not when only the nested
`parameters` parse fails); when it fails and the decoded string contains
both `sui_image_params` and `prompt`, the extraction returns the first
`"prompt": "<value>"` regex match — the value running to the next quote
character — trimmed, or nothing when the regex finds no match. -/
theorem regex_fallback_spec
    (puc : List Nat → Option UserComment)
    (entries : List (String × MetaVal)) (eb : List Nat)
    (uc : UserComment) (ms : String)
    (hscan : scanInfoEntries entries = none)
    (hexif : entries.lookup "exif" = some (MetaVal.mbytes eb))
    (huc : puc eb = some uc)
    (hdec : decodeUserComment uc = some ms)
    (hfail : pyJsonLoads ms = none)
    (hsub1 : strContains "sui_image_params" ms = true)
    (hsub2 : strContains "prompt" ms = true) :
    extract_prompt_from_image true puc ⟨entries⟩ =
      (promptRegexSearch ms.data).map (fun v => pyStrip (String.mk v)) := by
  have hms : ms ≠ "" := by
    intro hcon
    rw [hcon] at hsub1
    exact absurd hsub1 (by decide)
  unfold extract_prompt_from_image
  simp only [hscan, hexif, huc, hdec]
  rw [if_neg hms]
  unfold exifParseMetadata
  simp only [hfail, hsub1, hsub2]
  simp

/-- Witness for C3 (amended): the invalid-JSON document with a trailing
comma yields `"a dog"` through the regex fallback. -/
theorem regex_fallback_spec_witness :
    extract_prompt_from_image true
      (fun _ => some (UserComment.ucBytes (asciiBytes trailingCommaJson)))
      ⟨[("exif", MetaVal.mbytes [1, 2])]⟩ = some "a dog" :=
  (regex_fallback_spec
    (fun _ => some (UserComment.ucBytes (asciiBytes trailingCommaJson)))
    [("exif", MetaVal.mbytes [1, 2])] [1, 2]
    (UserComment.ucBytes (asciiBytes trailingCommaJson)) trailingCommaJson
    rfl rfl rfl rfl rfl rfl rfl).trans rfl

/-! ### C4: results are trimmed; the regex fallback alone can be empty -/

/-- Counterexample to C4: the regex fallback can return the empty string.
With the malformed metadata `sui_image_params "prompt": " "` the regex
group is a single space, and `.strip()` turns it into `""`, which
`extract_prompt_from_image` returns. -/
theorem extract_can_return_empty :
    extract_prompt_from_image true
      (fun _ => some (UserComment.ucBytes
        (asciiBytes "sui_image_params \"prompt\": \" \"")))
      ⟨[("exif", MetaVal.mbytes [1])]⟩ = some "" :=
  rfl

/-- C4 (amended): every prompt `extract_prompt_from_image` returns is
trimmed (it equals its own strip); every path other than the regex
fallback returns it nonempty — the direct scan always does, and so does
the EXIF route whenever the outer parse of the decoded UserComment string
succeeds — and an empty result can arise only from the regex fallback
matching a whitespace-only group after a failed outer parse; no empty
prompt is ever stored in a directory's prompt sequence, because
`process_folder` appends only truthy prompts. -/
theorem extract_prompt_trimmed :
    (∀ (pa : Bool) (puc : List Nat → Option UserComment) (img : ImageInfo)
      (p : String), extract_prompt_from_image pa puc img = some p →
        pyStrip p = p) ∧
    (∀ (es : List (String × MetaVal)) (q : String),
      scanInfoEntries es = some q → q ≠ "") ∧
    (∀ (ms q : String), pyJsonLoads ms ≠ none →
      exifParseMetadata ms = some q → q ≠ "") ∧
    (∀ (pa : Bool) (puc : List Nat → Option UserComment) (img : ImageInfo),
      extract_prompt_from_image pa puc img = some "" →
      ∃ eb uc ms, img.entries.lookup "exif" = some (MetaVal.mbytes eb) ∧
        pa = true ∧ puc eb = some uc ∧ decodeUserComment uc = some ms ∧
        pyJsonLoads ms = none ∧
        (promptRegexSearch ms.data).map (fun v => pyStrip (String.mk v)) =
          some "") ∧
    (∀ (ep : String → Option String) (files : List String) (p : String),
      p ∈ process_folder ep files → p ≠ "") :=
  ⟨extract_prompt_strip, scanInfoEntries_ne_empty, exifParseMetadata_ne_empty,
    extract_empty_only_regex, process_folder_no_empty⟩

/-- Witness for C4 (amended): a returned prompt at a concrete image is
trimmed and nonempty, and a stored prompt at a concrete folder is
nonempty. -/
theorem extract_prompt_trimmed_witness :
    pyStrip "hi" = "hi" ∧ "hi" ≠ "" ∧ "hi" ≠ "" :=
  ⟨extract_prompt_trimmed.1 true (fun _ => none)
      ⟨[("k", MetaVal.mstr "\x7b\"sui_image_params\": \x7b\"prompt\": \"hi \"\x7d\x7d")]⟩
      "hi" (by decide),
    extract_prompt_trimmed.2.1
      [("k", MetaVal.mstr "\x7b\"sui_image_params\": \x7b\"prompt\": \"hi \"\x7d\x7d")]
      "hi" (by decide),
    extract_prompt_trimmed.2.2.2.2 (fun _ => some "hi") ["a.png"] "hi"
      (by decide)⟩
